import Mathlib

/-!
Verification of the timeline visualization engine (static/js timeline widget).

This file gives a shallow embedding of the engine's pure core: date parsing
at month granularity, bounds resolution (`getTimelineBounds`), the greedy
interval-stacking algorithm (`stackOverlaps`), the grid/bar pixel geometry,
HTML escaping (`escapeHtml` and the markup builders), and the tooltip
controller's state machine (`showTip` / `hideTip` / `scheduleTooltipPosition` /
`updateTooltipPosition`), followed by theorems about these definitions.

Modelling conventions:
- A JavaScript number that is either an integer or NaN is modelled as
  `Option Int` (`none` = NaN).  The date fields handled by the engine are
  "YYYY-MM-DD" strings whose parts are nonnegative integers, so integer
  arithmetic is exact; NaN arises exactly from unparseable parts.
- A parsed `Date` is represented by its total month count
  `year * 12 + monthOfYear` (zero-based month).  `new Date(y, m - 1, d)`
  normalizes month overflow, which this representation captures exactly;
  the day-of-month component is dropped, as the engine works at month
  granularity (days only matter through calendar overflow, which is outside
  the engine's input contract).
- `Array.prototype.sort` is stable (ES2019).  For a consistent comparator a
  stable sort is unique, so we model it with stable insertion sort.  When a
  date is NaN the JS comparator returns NaN and the resulting order is
  implementation-defined; the model fixes one order (NaN sorts first).
-/

/-- A JS number restricted to the values the engine produces from date
fields: an integer, or NaN (`none`). -/
abbrev JsNum := Option Int

/-- Digit-string to number, used to model `Number(part)` on the parts of a
date string split on `"-"`: the empty string yields `0`, a string of ASCII
digits yields its value, anything else yields NaN (`none`). -/
def jsNumber (l : List Char) : JsNum :=
  if l.all Char.isDigit then some (l.foldl (fun n c => n * 10 + (c.toNat - 48)) 0) else none

/-- Model of `s.split("-")` on the character list of `s`. -/
def splitDash : List Char → List (List Char)
  | [] => [[]]
  | c :: rest =>
    match splitDash rest with
    | [] => [[c]]
    | p :: ps => if c = '-' then [] :: p :: ps else (c :: p) :: ps

/-- Source `parseDate(s)`: `const [y, m, d] = s.split("-").map(Number);
return new Date(y, m - 1, d || 1)`.  The result is the date's total month
count `y * 12 + (m - 1)` (so JS month-overflow normalization is exact), or
NaN when the year or month part is missing or non-numeric.  The day is
dropped (month granularity). -/
def parseDate (s : String) : JsNum :=
  let parts := splitDash s.data
  match parts[0]?.bind jsNumber, parts[1]?.bind jsNumber with
  | some yv, some mv => some (yv * 12 + (mv - 1))
  | _, _ => none

/-- Source `monthIndex(d, startYear) = (d.getFullYear() - startYear) * 12 +
d.getMonth()`; on the total-month representation `t` this is exactly
`t - startYear * 12`, and NaN propagates. -/
def monthIndex (d : JsNum) (startYear : Int) : JsNum :=
  d.map (fun t => t - startYear * 12)

/-- `d.getFullYear()` on the total-month representation (floor division,
matching `Date` month normalization; NaN propagates).  The legacy `Date`
mapping of years 0–99 to 1900–1999 is outside the input contract
(four-digit years) and not modelled. -/
def getFullYear (d : JsNum) : JsNum :=
  d.map (fun t => Int.ediv t 12)

/-- A raw appointment record as consumed by the engine; only the date
fields participate in layout (the label fields `label`, `persona`,
`institucion`, `nivel`, `temas` are carried through the `{...it}` spread
unchanged and are irrelevant to geometry). -/
structure Item where
  inicio : String
  fin : String
deriving DecidableEq, Repr

/-- An interval mapped to month coordinates (the `_start`/`_end` fields the
source adds before sorting). -/
structure SegIn where
  mstart : JsNum
  mend : JsNum
deriving DecidableEq, Repr

/-- A stacked interval: month coordinates plus the row `_row` assigned by
the stacking loop. -/
structure Placed where
  mstart : JsNum
  mend : JsNum
  mrow : Nat
deriving DecidableEq, Repr

/-- The per-item coordinate computation inside `stackOverlaps`. -/
def toSeg (it : Item) (startYear : Int) : SegIn :=
  { mstart := monthIndex (parseDate it.inicio) startYear
    mend := monthIndex (parseDate it.fin) startYear }

/-- Strict order on possibly-NaN numbers; `none` (NaN) is placed at the
bottom, fixing the implementation-defined order the JS sort gives to NaN
comparator results. -/
def optLt : JsNum → JsNum → Prop
  | none, some _ => True
  | some a, some b => a < b
  | _, none => False

/-- Non-strict companion of `optLt`. -/
def optLE : JsNum → JsNum → Prop
  | none, _ => True
  | some a, some b => a ≤ b
  | some _, none => False

instance : DecidableRel optLt := fun a b => by
  cases a <;> cases b <;> simp only [optLt] <;> infer_instance

instance : DecidableRel optLE := fun a b => by
  cases a <;> cases b <;> simp only [optLE] <;> infer_instance

/-- The sort order of `segs.sort((a, b) => a._start - b._start ||
a._end - b._end)`: lexicographic on `(_start, _end)`. -/
def segLE (a b : SegIn) : Prop :=
  optLt a.mstart b.mstart ∨ (a.mstart = b.mstart ∧ optLE a.mend b.mend)

instance : DecidableRel segLE := fun a b => by
  unfold segLE; infer_instance

/-- Comparison `x > y` as JS evaluates it on possibly-NaN values: false
whenever either side is NaN. -/
def jsGt : JsNum → JsNum → Bool
  | some a, some b => b < a
  | _, _ => false

/-- One pass of the row-scan loop of `stackOverlaps`: find the first row
whose current end value satisfies `it._start > rowsEnd[r]`, update it to
the interval's end, or append a new row.  Returns the assigned row index
and the updated `rowsEnd`. -/
def placeSeg (s e : JsNum) : List JsNum → Nat × List JsNum
  | [] => (0, [e])
  | re :: rest =>
    if jsGt s re then (0, e :: rest)
    else
      let p := placeSeg s e rest
      (p.1 + 1, re :: p.2)

/-- The stacking loop: place each sorted segment in order, threading
`rowsEnd`; returns the placed segments (in processing order, as the source
returns the sorted array it mutated) and the final `rowsEnd`. -/
def placeAll : List SegIn → List JsNum → List Placed × List JsNum
  | [], rowsEnd => ([], rowsEnd)
  | sg :: rest, rowsEnd =>
    let p := placeSeg sg.mstart sg.mend rowsEnd
    let q := placeAll rest p.2
    (⟨sg.mstart, sg.mend, p.1⟩ :: q.1, q.2)

/-- Source `stackOverlaps(items, startYear)`: map each record to month
coordinates, sort by `(_start, _end)` (stable), then greedily assign rows;
`rowCount` is the number of rows opened. -/
def stackOverlaps (items : List Item) (startYear : Int) : List Placed × Nat :=
  let segs := List.insertionSort segLE (items.map (toSeg · startYear))
  let p := placeAll segs []
  (p.1, p.2.length)

/-- Comparison `x <= y` as JS evaluates it on possibly-NaN values: false
whenever either side is NaN. -/
def jsLeB : JsNum → JsNum → Bool
  | some a, some b => a ≤ b
  | _, _ => false

/-- Two closed month-index ranges overlap (ranges that merely touch at an
equal boundary month count as overlapping): `s₁ ≤ e₂ ∧ s₂ ≤ e₁`. -/
def overlapB (a b : Placed) : Bool :=
  jsLeB a.mstart b.mend && jsLeB b.mstart a.mend

/-- A record is valid when both its dates parse and start is not after
end — the data-model invariant (`startDate <= endDate`, month
granularity). -/
def validItem (it : Item) : Bool :=
  match parseDate it.inicio, parseDate it.fin with
  | some a, some b => a ≤ b
  | _, _ => false

/-- A stacked segment's closed month range contains month `t`. -/
def pcontains (p : Placed) (t : Int) : Bool :=
  jsLeB p.mstart (some t) && jsLeB (some t) p.mend

/-- A coordinate segment's closed month range contains month `t`. -/
def scontains (sg : SegIn) (t : Int) : Bool :=
  jsLeB sg.mstart (some t) && jsLeB (some t) sg.mend

/-- Brute-force overlap-counting oracle: a record's month range (relative
to `startYear`) contains month `t`. -/
def containsMonth (it : Item) (startYear t : Int) : Bool :=
  scontains (toSeg it startYear) t

/-- Number of records simultaneously "open" at month index `t`. -/
def depthAt (items : List Item) (startYear t : Int) : Nat :=
  items.countP (fun it => containsMonth it startYear t)

-- ### bounds resolver

/-- Source `START_YEAR_DEFAULT = 1997`. -/
def START_YEAR_DEFAULT : Int := 1997

/-- `Math.min` on possibly-NaN values (NaN absorbs). -/
def jsMin : JsNum → JsNum → JsNum
  | some a, some b => some (min a b)
  | _, _ => none

/-- `Math.max` on possibly-NaN values (NaN absorbs). -/
def jsMax : JsNum → JsNum → JsNum
  | some a, some b => some (max a b)
  | _, _ => none

/-- Source `getTimelineBounds(items)`: defaults `{1997, currentYear}`
(`END_YEAR_DEFAULT = new Date().getFullYear()` is the `currentYear`
parameter); otherwise fold `Math.min`/`Math.max` over the records' start
and end years, then clamp outward against the defaults.  The source
accumulates `minYear` and `maxYear` in one `forEach`; the two accumulators
are independent, so they are modelled as two folds. -/
def getTimelineBounds (items : List Item) (currentYear : Int) : JsNum × JsNum :=
  if items.isEmpty then (some START_YEAR_DEFAULT, some currentYear)
  else
    let minYear := items.foldl
      (fun acc it => jsMin acc (getFullYear (parseDate it.inicio))) (some currentYear)
    let maxYear := items.foldl
      (fun acc it => jsMax acc (getFullYear (parseDate it.fin))) (some START_YEAR_DEFAULT)
    (jsMin (some START_YEAR_DEFAULT) minYear, jsMax (some currentYear) maxYear)

-- ### grid layout and bar geometry

/-- Source `totalMonths(startYear, endYear) = (endYear - startYear + 1) * 12`. -/
def totalMonths (startYear endYear : Int) : Int :=
  (endYear - startYear + 1) * 12

/-- Source `getMonthWidth()`: `parseFloat` of the CSS custom property
`--month-width`, or 18 when that is not a finite number.  The CSS value is
modelled as a possibly-NaN number. -/
def getMonthWidth (cssMonthWidth : JsNum) : Int :=
  cssMonthWidth.getD 18

/-- Source `setCanvasWidth`: `w = totalMonths(startYear, endYear) *
getMonthWidth() + 20`, assigned to the canvas width styles. -/
def setCanvasWidth (startYear endYear : Int) (cssMonthWidth : JsNum) : Int :=
  totalMonths startYear endYear * getMonthWidth cssMonthWidth + 20

/-- Source `MONTH_PX = 18` (the month width constant `renderLane` uses). -/
def MONTH_PX : Int := 18

/-- Source `LANE_BAR_H = 28`. -/
def LANE_BAR_H : Int := 28

/-- Source `STACK_GAP = 6`. -/
def STACK_GAP : Int := 6

/-- Bar geometry from `renderLane`, parameterized by the month width (the
configurable visual density; the source instantiates it with `MONTH_PX`):
`startX = 10 + it._start * MONTH_PX`.  NaN coordinates propagate. -/
def barStartX (mw : Int) (p : Placed) : JsNum :=
  p.mstart.map (fun s => 10 + s * mw)

/-- `endX = 10 + (it._end + 1) * MONTH_PX`. -/
def barEndX (mw : Int) (p : Placed) : JsNum :=
  p.mend.map (fun e => 10 + (e + 1) * mw)

/-- `w = Math.max(MONTH_PX, endX - startX - 2)` (`Math.max` with NaN is
NaN). -/
def barWidth (mw : Int) (p : Placed) : JsNum :=
  match barStartX mw p, barEndX mw p with
  | some sx, some ex => some (max mw (ex - sx - 2))
  | _, _ => none

/-- `y = 6 + it._row * (LANE_BAR_H + STACK_GAP)`. -/
def barTop (p : Placed) : Int :=
  6 + (p.mrow : Int) * (LANE_BAR_H + STACK_GAP)

/-- The layout part of `renderLane`: stack the records, then compute each
bar's pixel geometry; also returns `rowCount` (used for the lane height). -/
def renderLaneBars (items : List Item) (startYear : Int) (mw : Int) :
    List (Placed × JsNum × Int × JsNum) × Nat :=
  let r := stackOverlaps items startYear
  (r.1.map (fun p => (p, barStartX mw p, barTop p, barWidth mw p)), r.2)

-- ### HTML escaping and markup builders

/-- The character replacement of `escapeHtml`:
`{ "&": "&amp;", "<": "&lt;", ">": "&gt;", '"': "&quot;", "'": "&#039;" }`. -/
def escChar (c : Char) : List Char :=
  if c = '&' then "&amp;".data
  else if c = '<' then "&lt;".data
  else if c = '>' then "&gt;".data
  else if c = '"' then "&quot;".data
  else if c = '\'' then "&#039;".data
  else [c]

/-- Source `escapeHtml(s) = String(s).replace(/[&<>"']/g, c => ...)`. -/
def escapeHtml (s : String) : String :=
  ⟨(s.data.map escChar).flatten⟩

/-- The five entities `escapeHtml` may emit. -/
def entityList : List (List Char) :=
  ["&amp;".data, "&lt;".data, "&gt;".data, "&quot;".data, "&#039;".data]

/-- Month abbreviations used by `formatMY`. -/
def monthNames : List String :=
  ["ene", "feb", "mar", "abr", "may", "jun", "jul", "ago", "sep", "oct", "nov", "dic"]

/-- Source `formatMY(s)`: month abbreviation and year of the parsed date.
On an invalid date, `months[d.getMonth()]` is `undefined` and
`d.getFullYear()` is NaN, so the template yields `"undefined NaN"`. -/
def formatMY (s : String) : String :=
  match parseDate s with
  | some t => monthNames.getD (Int.emod t 12).toNat "undefined" ++ " " ++ toString (Int.ediv t 12)
  | none => "undefined NaN"

/-- The bar `innerHTML` template from `renderLane` (whitespace of the
template literal is abbreviated; it contains no markup-relevant
characters). -/
def barInnerHTML (nivel main sub : String) : String :=
  "<span class=\"bar-tag\">" ++ escapeHtml nivel ++ "</span>" ++
    "<div class=\"bar-text\">" ++
    "<b title=\"" ++ escapeHtml main ++ "\">" ++ escapeHtml main ++ "</b>" ++
    "<span title=\"" ++ escapeHtml sub ++ "\">" ++ escapeHtml sub ++ "</span>" ++
    "</div>"

/-- Source `buildTooltipContent(title, sub, nivel, inicio, fin, temas)`. -/
def buildTooltipContent (title sub nivel inicio fin : String) (temas : List String) : String :=
  let topicsHtml :=
    if temas.isEmpty then
      "<div class=\"tooltip-topics\">" ++
        "<div class=\"tooltip-topics-title\">Temas</div>" ++
        "<div class=\"tooltip-empty\">Sin temas vinculados</div>" ++
        "</div>"
    else
      "<div class=\"tooltip-topics\">" ++
        "<div class=\"tooltip-topics-title\">Temas</div>" ++
        "<div class=\"tooltip-meta\">" ++
        String.join (temas.map
          (fun tema => "<span class=\"tooltip-pill\">" ++ escapeHtml tema ++ "</span>")) ++
        "</div>" ++
        "</div>"
  "<div class=\"tooltip-title\">" ++ escapeHtml title ++ "</div>" ++
    "<div class=\"tooltip-subtitle\">" ++ escapeHtml sub ++ "</div>" ++
    "<div class=\"tooltip-meta\">" ++
    "<span class=\"tooltip-pill\">" ++ escapeHtml nivel ++ "</span>" ++
    "<span class=\"tooltip-pill\">" ++ formatMY inicio ++ " – " ++ formatMY fin ++ "</span>" ++
    "</div>" ++ topicsHtml

/-- Occurrences of a character in a string. -/
def countChar (c : Char) (s : String) : Nat :=
  s.data.count c

-- ### tooltip controller

/-- A DOM bounding rectangle (`getBoundingClientRect`). -/
structure Rect where
  left : Int
  right : Int
  top : Int
  bottom : Int
  width : Int
  height : Int
deriving DecidableEq, Repr

/-- Source `clamp(value, min, max) = Math.max(min, Math.min(max, value))`. -/
def clamp (value lo hi : Int) : Int :=
  max lo (min hi value)

/-- Tooltip controller state: the module-level mutables `activeBar` (the
anchor, a bar reference modelled as a bar id) and `rafId` (whether a frame
callback handle is held), the tooltip element's `show` class and inline
position, and `framesQueued`, the number of animation-frame callbacks
requested and not yet fired (browser-side bookkeeping used to state the
coalescing invariant). -/
structure TipState where
  activeBar : Option Nat
  shown : Bool
  rafId : Bool
  framesQueued : Nat
  tipPos : Option (Int × Int)
deriving DecidableEq, Repr

/-- The initial state: no anchor, tooltip hidden, no pending frame. -/
def initTipState : TipState :=
  { activeBar := none, shown := false, rafId := false, framesQueued := 0, tipPos := none }

/-- Source `scheduleTooltipPosition()`: `if (rafId) return;` then request a
frame callback and store its handle. -/
def scheduleTooltipPosition (st : TipState) : TipState :=
  if st.rafId then st
  else { st with rafId := true, framesQueued := st.framesQueued + 1 }

/-- Source `showTip(bar, ...)`: set the anchor, fill and show the tooltip,
schedule a position recompute.  (The rendered content is not part of the
controller state.) -/
def showTip (bar : Nat) (st : TipState) : TipState :=
  scheduleTooltipPosition { st with activeBar := some bar, shown := true }

/-- Source `hideTip()`: hide the tooltip and clear the anchor (the frame
handle is not cancelled). -/
def hideTip (st : TipState) : TipState :=
  { st with shown := false, activeBar := none }

/-- Source `updateTooltipPosition()`: bail out without an anchor or with
the tooltip hidden; force-hide when the anchor's box no longer intersects
the panel's box; otherwise place above-centered, flip below when clipped at
the top, clamp both axes with padding 12.  (JS halves are floats; integer
division stands in for them, which no claim depends on.) -/
def updateTooltipPosition (panelRect : Rect) (barRects : Nat → Rect) (tipRect : Rect)
    (st : TipState) : TipState :=
  match st.activeBar with
  | none => st
  | some bar =>
    if st.shown then
      let b := barRects bar
      if b.right < panelRect.left ∨ b.left > panelRect.right ∨
          b.bottom < panelRect.top ∨ b.top > panelRect.bottom then
        hideTip st
      else
        let left0 := b.left - panelRect.left + b.width / 2 - tipRect.width / 2
        let top0 := b.top - panelRect.top - tipRect.height - 10
        let top1 := if top0 < 12 then b.bottom - panelRect.top + 10 else top0
        { st with
          tipPos := some (clamp left0 12 (panelRect.width - tipRect.width - 12),
            clamp top1 12 (panelRect.height - tipRect.height - 12)) }
    else st

/-- The bar click handler: toggle off when the clicked bar is the shown
anchor (`activeBar === bar && tooltip.classList.contains("show")`),
otherwise show. -/
def clickBar (bar : Nat) (st : TipState) : TipState :=
  if st.activeBar = some bar ∧ st.shown = true then hideTip st else showTip bar st

/-- The discrete events the tooltip controller reacts to: the bar handlers
(`mouseenter`, `mouseleave`, `focus`, `blur`, `click`, `keydown
Enter/Space`), the document-level dismissals (outside `pointerdown`,
Escape), the scroll/resize triggers, and the firing of a requested
animation-frame callback (carrying the rectangles the recompute reads). -/
inductive TimelineEv where
  | enter (bar : Nat)
  | leave
  | focusBar (bar : Nat)
  | blurBar
  | clickB (bar : Nat)
  | keyActivate (bar : Nat)
  | scroll
  | winResize
  | outsidePointer
  | escapeKey
  | frame (panelRect : Rect) (barRects : Nat → Rect) (tipRect : Rect)

/-- The event dispatch of the controller, from the listeners wired in
`renderLane` and at module level. -/
def stepEv (ev : TimelineEv) (st : TipState) : TipState :=
  match ev with
  | .enter bar => showTip bar st
  | .leave => hideTip st
  | .focusBar bar => showTip bar st
  | .blurBar => hideTip st
  | .clickB bar => clickBar bar st
  | .keyActivate bar => showTip bar st
  | .scroll => scheduleTooltipPosition st
  | .winResize => scheduleTooltipPosition st
  | .outsidePointer => if st.shown then hideTip st else st
  | .escapeKey => hideTip st
  | .frame pr br tr =>
    if st.framesQueued = 0 then st
    else updateTooltipPosition pr br tr { st with rafId := false, framesQueued := st.framesQueued - 1 }

/-- A run of the controller from the initial state. -/
def runEvents (evs : List TimelineEv) : TipState :=
  evs.foldl (fun st ev => stepEv ev st) initTipState

-- ### order facts for the sort relation

lemma optLE_refl (a : JsNum) : optLE a a := by
  cases a <;> simp [optLE]

lemma optLt_trans {a b c : JsNum} : optLt a b → optLt b c → optLt a c := by
  cases a <;> cases b <;> cases c <;> simp [optLt] <;> omega

lemma optLE_trans {a b c : JsNum} : optLE a b → optLE b c → optLE a c := by
  cases a <;> cases b <;> cases c <;> simp [optLE] <;> omega

lemma optLt_of_optLt_of_eq {a b c : JsNum} : optLt a b → b = c → optLt a c := by
  rintro h rfl; exact h

lemma segLE_total : ∀ a b : SegIn, segLE a b ∨ segLE b a := by
  intro a b
  unfold segLE
  rcases ha : a.mstart with _ | x <;> rcases hb : b.mstart with _ | y
  · rcases hae : a.mend with _ | u <;> rcases hbe : b.mend with _ | v <;>
      simp [optLt, optLE, ha, hb, hae, hbe] <;> omega
  · simp [optLt, ha, hb]
  · simp [optLt, ha, hb]
  · rcases lt_trichotomy x y with h | h | h
    · exact Or.inl (Or.inl (by simp [optLt, ha, hb, h]))
    · subst h
      rcases hae : a.mend with _ | u <;> rcases hbe : b.mend with _ | v <;>
        simp [optLt, optLE, ha, hb, hae, hbe] <;> omega
    · exact Or.inr (Or.inl (by simp [optLt, ha, hb, h]))

lemma segLE_trans : ∀ a b c : SegIn, segLE a b → segLE b c → segLE a c := by
  intro a b c hab hbc
  rcases hab with h1 | ⟨h1, h1e⟩ <;> rcases hbc with h2 | ⟨h2, h2e⟩
  · exact Or.inl (optLt_trans h1 h2)
  · exact Or.inl (optLt_of_optLt_of_eq h1 h2)
  · exact Or.inl (h1 ▸ h2)
  · exact Or.inr ⟨h1.trans h2, optLE_trans h1e h2e⟩

instance : IsTotal SegIn segLE := ⟨segLE_total⟩

instance : IsTrans SegIn segLE := ⟨segLE_trans⟩

/-- The sort key dominates: a `segLE`-smaller segment has a `optLE`-smaller
start. -/
lemma segLE_start {a b : SegIn} (h : segLE a b) : optLE a.mstart b.mstart := by
  rcases h with h | ⟨h, _⟩
  · rcases ha : a.mstart with _ | x <;> rcases hb : b.mstart with _ | y <;>
      simp_all [optLt, optLE] <;> omega
  · rw [h]; exact optLE_refl _

-- ### facts about one pass of the row-scan loop

lemma placeSeg_row_le (s e : JsNum) : ∀ l : List JsNum, (placeSeg s e l).1 ≤ l.length := by
  intro l
  induction l with
  | nil => simp [placeSeg]
  | cons re rest ih =>
    simp only [placeSeg, List.length_cons]
    split
    · simp
    · simpa using ih

lemma placeSeg_length (s e : JsNum) :
    ∀ l : List JsNum, (placeSeg s e l).2.length = max l.length ((placeSeg s e l).1 + 1) := by
  intro l
  induction l with
  | nil => simp [placeSeg]
  | cons re rest ih =>
    simp only [placeSeg, List.length_cons]
    split
    · simp
    · simp only [List.length_cons, ih]
      omega

lemma placeSeg_row_lt_out (s e : JsNum) (l : List JsNum) :
    (placeSeg s e l).1 < (placeSeg s e l).2.length := by
  rw [placeSeg_length]; omega

lemma placeSeg_len_le_out (s e : JsNum) (l : List JsNum) :
    l.length ≤ (placeSeg s e l).2.length := by
  rw [placeSeg_length]; omega

lemma placeSeg_scan (s e : JsNum) :
    ∀ (l : List JsNum) (j : Nat) (hj : j < l.length),
      j < (placeSeg s e l).1 → jsGt s l[j] = false := by
  intro l
  induction l with
  | nil => intro j hj; simp at hj
  | cons re rest ih =>
    intro j hj hlt
    simp only [placeSeg] at hlt
    split at hlt
    · omega
    · rename_i hgt
      match j with
      | 0 => simpa using Bool.eq_false_iff.mpr hgt
      | j' + 1 =>
        simp only [List.getElem_cons_succ]
        exact ih j' (by simpa using hj) (by omega)

lemma placeSeg_found (s e : JsNum) :
    ∀ (l : List JsNum) (h : (placeSeg s e l).1 < l.length),
      jsGt s l[(placeSeg s e l).1] = true := by
  intro l
  induction l with
  | nil => intro h; simp [placeSeg] at h
  | cons re rest ih =>
    intro h
    by_cases hgt : jsGt s re = true
    · simp [placeSeg, hgt]
    · have hrow : (placeSeg s e (re :: rest)).1 = (placeSeg s e rest).1 + 1 := by
        simp [placeSeg, hgt]
      rw [hrow] at h
      simp only [hrow, List.getElem_cons_succ]
      exact ih (by simpa using h)

lemma placeSeg_get_row (s e : JsNum) :
    ∀ (l : List JsNum) (h : (placeSeg s e l).1 < (placeSeg s e l).2.length),
      (placeSeg s e l).2[(placeSeg s e l).1] = e := by
  intro l
  induction l with
  | nil => intro h; simp [placeSeg]
  | cons re rest ih =>
    intro h
    by_cases hgt : jsGt s re = true
    · simp [placeSeg, hgt]
    · have h1 : (placeSeg s e (re :: rest)).1 = (placeSeg s e rest).1 + 1 := by
        simp [placeSeg, hgt]
      have h2 : (placeSeg s e (re :: rest)).2 = re :: (placeSeg s e rest).2 := by
        simp [placeSeg, hgt]
      simp only [h1, h2, List.getElem_cons_succ]
      exact ih (placeSeg_row_lt_out s e rest)

lemma placeSeg_get_other (s e : JsNum) :
    ∀ (l : List JsNum) (j : Nat) (hj : j < l.length) (hj2 : j < (placeSeg s e l).2.length),
      j ≠ (placeSeg s e l).1 → (placeSeg s e l).2[j] = l[j] := by
  intro l
  induction l with
  | nil => intro j hj; simp at hj
  | cons re rest ih =>
    intro j hj hj2 hne
    by_cases hgt : jsGt s re = true
    · have h1 : (placeSeg s e (re :: rest)).1 = 0 := by simp [placeSeg, hgt]
      have h2 : (placeSeg s e (re :: rest)).2 = e :: rest := by simp [placeSeg, hgt]
      match j with
      | 0 => exact absurd (h1 ▸ rfl) hne
      | j' + 1 => simp [h2]
    · have h1 : (placeSeg s e (re :: rest)).1 = (placeSeg s e rest).1 + 1 := by
        simp [placeSeg, hgt]
      have h2 : (placeSeg s e (re :: rest)).2 = re :: (placeSeg s e rest).2 := by
        simp [placeSeg, hgt]
      match j with
      | 0 => simp [h2]
      | j' + 1 =>
        simp only [h2, List.getElem_cons_succ]
        exact ih j' (by simpa using hj) (by rw [h2] at hj2; simpa using hj2)
          (by rw [h1] at hne; omega)

lemma jsGt_iff (a b : JsNum) : jsGt a b = true ↔ ∃ x y : Int, a = some x ∧ b = some y ∧ y < x := by
  cases a <;> cases b <;> simp [jsGt]

-- ### facts about the full stacking loop

lemma placeAll_coords :
    ∀ (segs : List SegIn) (st : List JsNum),
      (placeAll segs st).1.map (fun p => (p.mstart, p.mend)) =
        segs.map (fun sg => (sg.mstart, sg.mend)) := by
  intro segs
  induction segs with
  | nil => intro st; simp [placeAll]
  | cons sg rest ih => intro st; simp [placeAll, ih]

lemma placeAll_mem_coords :
    ∀ (segs : List SegIn) (st : List JsNum), ∀ p ∈ (placeAll segs st).1,
      ∃ sg ∈ segs, sg.mstart = p.mstart ∧ sg.mend = p.mend := by
  intro segs
  induction segs with
  | nil => intro st p hp; simp [placeAll] at hp
  | cons sg rest ih =>
    intro st p hp
    simp only [placeAll, List.mem_cons] at hp
    rcases hp with rfl | hp
    · exact ⟨sg, by simp⟩
    · obtain ⟨sg', hmem, h1, h2⟩ := ih _ p hp
      exact ⟨sg', List.mem_cons_of_mem _ hmem, h1, h2⟩

lemma placeAll_len_mono :
    ∀ (segs : List SegIn) (st : List JsNum), st.length ≤ (placeAll segs st).2.length := by
  intro segs
  induction segs with
  | nil => intro st; simp [placeAll]
  | cons sg rest ih =>
    intro st
    calc st.length ≤ (placeSeg sg.mstart sg.mend st).2.length := placeSeg_len_le_out _ _ _
      _ ≤ _ := ih _

lemma placeAll_rows_lt :
    ∀ (segs : List SegIn) (st : List JsNum), ∀ p ∈ (placeAll segs st).1,
      p.mrow < (placeAll segs st).2.length := by
  intro segs
  induction segs with
  | nil => intro st p hp; simp [placeAll] at hp
  | cons sg rest ih =>
    intro st p hp
    simp only [placeAll, List.mem_cons] at hp
    rcases hp with rfl | hp
    · exact lt_of_lt_of_le (placeSeg_row_lt_out _ _ _) (placeAll_len_mono _ _)
    · exact ih _ p hp

/-- Key fact: every stacked segment that lands in a row `r` already open in
the incoming state starts strictly after that row's incoming end value
(given the segments are sorted). -/
lemma placeAll_row_gt :
    ∀ (segs : List SegIn) (st : List JsNum), segs.Pairwise segLE →
      ∀ (r : Nat) (hr : r < st.length), ∀ p ∈ (placeAll segs st).1, p.mrow = r →
        jsGt p.mstart st[r] = true := by
  intro segs
  induction segs with
  | nil => intro st _ r hr p hp; simp [placeAll] at hp
  | cons sg rest ih =>
    intro st hsort r hr p hp hrow
    simp only [placeAll, List.mem_cons] at hp
    have hlen := placeSeg_len_le_out sg.mstart sg.mend st
    rcases hp with rfl | hp
    · have hrr : (placeSeg sg.mstart sg.mend st).1 = r := hrow
      subst hrr
      exact placeSeg_found sg.mstart sg.mend st hr
    · have hgt' := ih (placeSeg sg.mstart sg.mend st).2 hsort.tail r (lt_of_lt_of_le hr hlen)
        p hp hrow
      by_cases hcase : r = (placeSeg sg.mstart sg.mend st).1
      · -- the head occupied row `r`; the state entry there is the head's end
        subst hcase
        have hget : (placeSeg sg.mstart sg.mend st).2[(placeSeg sg.mstart sg.mend st).1] =
            sg.mend :=
          placeSeg_get_row sg.mstart sg.mend st (placeSeg_row_lt_out sg.mstart sg.mend st)
        rw [hget] at hgt'
        obtain ⟨sp, ex, hps, hse, hlt⟩ := (jsGt_iff _ _).mp hgt'
        obtain ⟨sx, v, hsx, hv, hvlt⟩ :=
          (jsGt_iff _ _).mp (placeSeg_found sg.mstart sg.mend st hr)
        obtain ⟨sg', hmem, hst, _⟩ := placeAll_mem_coords _ _ p hp
        have hle : optLE sg.mstart sg'.mstart :=
          segLE_start (List.rel_of_pairwise_cons hsort hmem)
        rw [hsx, hst, hps] at hle
        simp only [optLE] at hle
        rw [hps, hv, jsGt]
        simp only [decide_eq_true_eq]
        omega
      · -- row `r` untouched by the head: state entry unchanged
        have hr2 : r < (placeSeg sg.mstart sg.mend st).2.length := lt_of_lt_of_le hr hlen
        have hget : (placeSeg sg.mstart sg.mend st).2[r] = st[r] :=
          placeSeg_get_other sg.mstart sg.mend st r hr hr2 hcase
        rwa [hget] at hgt'

/-- Stacking invariant, over any sorted input and incoming state: two
stacked segments sharing a row never overlap (touching included). -/
lemma placeAll_pairwise :
    ∀ (segs : List SegIn) (st : List JsNum), segs.Pairwise segLE →
      (placeAll segs st).1.Pairwise (fun a b => a.mrow = b.mrow → overlapB a b = false) := by
  intro segs
  induction segs with
  | nil => intro st _; simp [placeAll]
  | cons sg rest ih =>
    intro st hsort
    simp only [placeAll, List.pairwise_cons]
    refine ⟨?_, ih _ hsort.tail⟩
    intro p hp hrow
    have hgt := placeAll_row_gt rest (placeSeg sg.mstart sg.mend st).2 hsort.tail
      (placeSeg sg.mstart sg.mend st).1 (placeSeg_row_lt_out _ _ _) p hp hrow.symm
    rw [placeSeg_get_row sg.mstart sg.mend st (placeSeg_row_lt_out sg.mstart sg.mend st)]
      at hgt
    obtain ⟨sp, ex, hps, hse, hlt⟩ := (jsGt_iff _ _).mp hgt
    have h2 : jsLeB p.mstart sg.mend = false := by
      rw [hps, hse]
      simp only [jsLeB, decide_eq_false_iff_not]
      omega
    simp [overlapB, h2]

-- ### claim theorems: stacking invariant, geometry, density independence

/-- C1: For every input list of records, in the output of `stackOverlaps`
no two intervals assigned the same row have overlapping
`[startMonthIndex, endMonthIndex]` ranges, where ranges that merely touch
at an equal boundary month also count as overlapping. -/
theorem stackOverlaps_same_row_disjoint (items : List Item) (startYear : Int) :
    (stackOverlaps items startYear).1.Pairwise
      (fun a b => a.mrow = b.mrow → overlapB a b = false) :=
  placeAll_pairwise _ [] (List.sorted_insertionSort segLE _)

/-- C4 counterexample: for `startYear = 2000`, `endYear = 2001`,
`monthWidthPx = 18` the canvas width is `452`, not
`10 + totalMonths * monthWidthPx + 20 = 462` — the code computes
`totalMonths * monthWidth + 20` with no additional leading 10. -/
theorem setCanvasWidth_claim_false :
    ¬ setCanvasWidth 2000 2001 (some 18) = 10 + totalMonths 2000 2001 * 18 + 20 := by
  decide

/-- C4 amended: the canvas width for a resolved year range equals
`totalMonths * monthWidthPx + 20` where
`totalMonths = (endYear - startYear + 1) * 12`; in particular for
`startYear = 2000`, `endYear = 2001`, `monthWidthPx = 18` (also the
default when the CSS value is missing) the width is `452`. -/
theorem setCanvasWidth_spec :
    (∀ startYear endYear mw : Int,
      setCanvasWidth startYear endYear (some mw) = (endYear - startYear + 1) * 12 * mw + 20) ∧
    setCanvasWidth 2000 2001 (some 18) = 452 ∧ setCanvasWidth 2000 2001 none = 452 := by
  refine ⟨fun startYear endYear mw => ?_, by decide, by decide⟩
  simp [setCanvasWidth, totalMonths, getMonthWidth]

/-- C8 counterexample: for the placed interval with `startMonthIndex = 0`,
`endMonthIndex = 1`, `row = 0` and `monthWidthPx = 18`, the rendered width
is `max(18, 34) = 34`, not the claimed
`max(monthWidthPx, (endMonthIndex + 1) * monthWidthPx - left - 2) =
max(18, 24) = 24`: the code subtracts `startX` from `endX`, and both
include the 10-pixel offset, which therefore cancels. -/
theorem barWidth_claim_false :
    ¬ barWidth 18 ⟨some 0, some 1, 0⟩ =
        some (max 18 ((1 + 1) * 18 - (10 + 0 * 18) - 2)) := by
  decide

/-- C8 amended: for every interval placed in a lane,
`left = 10 + startMonthIndex * monthWidthPx`,
`width = max(monthWidthPx, (endMonthIndex + 1) * monthWidthPx -
startMonthIndex * monthWidthPx - 2)` (the two 10-pixel offsets of `endX`
and `left` cancel), and `top = 6 + row * (barHeight + rowGap)`. -/
theorem renderLane_geometry (mw s e : Int) (r : Nat) :
    barStartX mw ⟨some s, some e, r⟩ = some (10 + s * mw) ∧
    barWidth mw ⟨some s, some e, r⟩ = some (max mw ((e + 1) * mw - s * mw - 2)) ∧
    barTop ⟨some s, some e, r⟩ = 6 + (r : Int) * (LANE_BAR_H + STACK_GAP) := by
  refine ⟨rfl, ?_, rfl⟩
  simp only [barWidth, barStartX, barEndX, Option.map_some']
  congr 1
  ring_nf

/-- C9: row assignment is independent of pixel density — for every record
list and bounds start year, lane layouts computed under two different
month widths carry identical placed segments (same rows) and identical
`rowCount`; the stacking step never reads the month-width parameter. -/
theorem stacking_independent_of_month_width (items : List Item) (startYear mw₁ mw₂ : Int) :
    ((renderLaneBars items startYear mw₁).1.map (fun b => b.1) =
      (renderLaneBars items startYear mw₂).1.map (fun b => b.1)) ∧
    (renderLaneBars items startYear mw₁).2 = (renderLaneBars items startYear mw₂).2 := by
  constructor
  · simp [renderLaneBars, List.map_map, Function.comp]
  · rfl

-- ### C2: rowCount equals the maximum simultaneous-overlap depth

lemma jsLeB_some_right {x : JsNum} {t : Int} :
    jsLeB x (some t) = true ↔ ∃ a : Int, x = some a ∧ a ≤ t := by
  cases x <;> simp [jsLeB]

lemma jsLeB_some_left {x : JsNum} {t : Int} :
    jsLeB (some t) x = true ↔ ∃ b : Int, x = some b ∧ t ≤ b := by
  cases x <;> simp [jsLeB]

lemma overlap_of_pcontains {a b : Placed} {t : Int}
    (ha : pcontains a t = true) (hb : pcontains b t = true) : overlapB a b = true := by
  simp only [pcontains, Bool.and_eq_true] at ha hb
  obtain ⟨ha1, ha2⟩ := ha
  obtain ⟨hb1, hb2⟩ := hb
  obtain ⟨sa, hsa, hsa'⟩ := jsLeB_some_right.mp ha1
  obtain ⟨ea, hea, hea'⟩ := jsLeB_some_left.mp ha2
  obtain ⟨sb, hsb, hsb'⟩ := jsLeB_some_right.mp hb1
  obtain ⟨eb, heb, heb'⟩ := jsLeB_some_left.mp hb2
  simp only [overlapB, hsa, hea, hsb, heb, jsLeB, Bool.and_eq_true, decide_eq_true_eq]
  omega

/-- `stackOverlaps` unfolded to the stacking loop on the sorted segments. -/
lemma stackOverlaps_eq (items : List Item) (startYear : Int) :
    stackOverlaps items startYear =
      ((placeAll (List.insertionSort segLE (items.map (toSeg · startYear))) []).1,
        (placeAll (List.insertionSort segLE (items.map (toSeg · startYear))) []).2.length) :=
  rfl

/-- The overlap-depth oracle on the records equals the same count over the
stacked output (mapping, sorting and row assignment preserve the
multiset of coordinates). -/
lemma depthAt_eq_placed (items : List Item) (startYear t : Int) :
    depthAt items startYear t =
      (stackOverlaps items startYear).1.countP (fun p => pcontains p t) := by
  rw [stackOverlaps_eq]
  have h3 :
      (placeAll (List.insertionSort segLE (items.map (toSeg · startYear))) []).1.countP
          (fun p => pcontains p t) =
        (List.insertionSort segLE (items.map (toSeg · startYear))).countP
          (fun sg => scontains sg t) := by
    have hm := List.countP_map
      (fun pr : JsNum × JsNum => jsLeB pr.1 (some t) && jsLeB (some t) pr.2)
      (fun p : Placed => (p.mstart, p.mend))
      (placeAll (List.insertionSort segLE (items.map (toSeg · startYear))) []).1
    have hm' := List.countP_map
      (fun pr : JsNum × JsNum => jsLeB pr.1 (some t) && jsLeB (some t) pr.2)
      (fun sg : SegIn => (sg.mstart, sg.mend))
      (List.insertionSort segLE (items.map (toSeg · startYear)))
    rw [placeAll_coords] at hm
    rw [hm'] at hm
    exact hm.symm
  rw [h3]
  rw [(List.perm_insertionSort segLE (items.map (toSeg · startYear))).countP_eq]
  rw [List.countP_map]
  rfl

/-- Upper bound: the number of records open at any month never exceeds the
returned `rowCount`. -/
lemma depthAt_le_rowCount (items : List Item) (startYear t : Int) :
    depthAt items startYear t ≤ (stackOverlaps items startYear).2 := by
  rw [depthAt_eq_placed]
  have hpw : (stackOverlaps items startYear).1.Pairwise
      (fun a b => a.mrow = b.mrow → overlapB a b = false) :=
    placeAll_pairwise _ [] (List.sorted_insertionSort segLE _)
  have hrows : ∀ p ∈ (stackOverlaps items startYear).1,
      p.mrow < (stackOverlaps items startYear).2 := by
    rw [stackOverlaps_eq]
    exact placeAll_rows_lt _ []
  set placed := (stackOverlaps items startYear).1 with hpl
  set rc := (stackOverlaps items startYear).2 with hrc
  set l := placed.filter (fun p => pcontains p t) with hl
  have hsub : l.Sublist placed := List.filter_sublist placed
  have hne : l.Pairwise (fun a b => a.mrow ≠ b.mrow) := by
    refine (List.Pairwise.sublist hsub hpw).imp_of_mem ?_
    intro a b ha hb hR heq
    have hca := (List.mem_filter.mp ha).2
    have hcb := (List.mem_filter.mp hb).2
    have := hR heq
    rw [overlap_of_pcontains hca hcb] at this
    exact Bool.noConfusion this
  have hnd : (l.map Placed.mrow).Nodup :=
    List.Pairwise.map _ (fun a b h => h) hne
  have hsubset : (l.map Placed.mrow).toFinset ⊆ Finset.range rc := by
    intro x hx
    rw [List.mem_toFinset] at hx
    obtain ⟨p, hpmem, rfl⟩ := List.mem_map.mp hx
    exact Finset.mem_range.mpr (hrows p (hsub.subset hpmem))
  calc placed.countP (fun p => pcontains p t) = l.length := List.countP_eq_length_filter _ _
    _ = (l.map Placed.mrow).length := (List.length_map _ _).symm
    _ = (l.map Placed.mrow).toFinset.card := (List.toFinset_card_of_nodup hnd).symm
    _ ≤ (Finset.range rc).card := Finset.card_le_card hsubset
    _ = rc := Finset.card_range rc

lemma placeAll_cons (sg : SegIn) (rest : List SegIn) (st : List JsNum) :
    placeAll (sg :: rest) st =
      (⟨sg.mstart, sg.mend, (placeSeg sg.mstart sg.mend st).1⟩ ::
          (placeAll rest (placeSeg sg.mstart sg.mend st).2).1,
        (placeAll rest (placeSeg sg.mstart sg.mend st).2).2) :=
  rfl

/-- Lower bound, generalized over the stacking loop: if every open row's
current end value belongs to an already-placed segment whose start does not
exceed any future start, and the current row count is certified by some
month contained in that many processed segments, then the final row count
is certified by a month within the processed-plus-new segments.  The
certificate is (re)established exactly when a new row opens: the opening
segment's start month is contained in it and in each open row's last
segment. -/
lemma placeAll_depth_lower :
    ∀ (segs : List SegIn) (done : List Placed) (st : List JsNum),
      segs.Pairwise segLE →
      (∀ sg ∈ segs, ∃ a b : Int, sg.mstart = some a ∧ sg.mend = some b ∧ a ≤ b) →
      (∀ p ∈ done, ∃ a b : Int, p.mstart = some a ∧ p.mend = some b) →
      (∀ r : Nat, (hr : r < st.length) →
        ∃ p ∈ done, p.mrow = r ∧ p.mend = st[r] ∧
          ∃ sp : Int, p.mstart = some sp ∧
            ∀ sg ∈ segs, ∀ si : Int, sg.mstart = some si → sp ≤ si) →
      (∃ t : Int, st.length ≤ done.countP (fun p => pcontains p t)) →
      ∃ t : Int, (placeAll segs st).2.length ≤
        (done ++ (placeAll segs st).1).countP (fun p => pcontains p t) := by
  intro segs
  induction segs with
  | nil =>
    intro done st _ _ _ _ hcert
    simpa [placeAll] using hcert
  | cons sg rest ih =>
    intro done st hsort hsegs hdone hstate hcert
    obtain ⟨sx, ex, hsx, hex, hord⟩ := hsegs sg (List.mem_cons_self _ _)
    have hrowle := placeSeg_row_le sg.mstart sg.mend st
    have hlen := placeSeg_length sg.mstart sg.mend st
    set row := (placeSeg sg.mstart sg.mend st).1 with hrow
    set st' := (placeSeg sg.mstart sg.mend st).2 with hst'
    set xP : Placed := ⟨sg.mstart, sg.mend, row⟩ with hxP
    -- the invariant for the recursive call
    have hdone' : ∀ p ∈ done ++ [xP], ∃ a b : Int, p.mstart = some a ∧ p.mend = some b := by
      intro p hp
      rcases List.mem_append.mp hp with hp | hp
      · exact hdone p hp
      · rw [List.mem_singleton.mp hp]
        exact ⟨sx, ex, hsx, hex⟩
    have hstate' : ∀ r : Nat, (hr : r < st'.length) →
        ∃ p ∈ done ++ [xP], p.mrow = r ∧ p.mend = st'[r] ∧
          ∃ sp : Int, p.mstart = some sp ∧
            ∀ sg' ∈ rest, ∀ si : Int, sg'.mstart = some si → sp ≤ si := by
      intro r hr
      by_cases hc : r = row
      · subst hc
        refine ⟨xP, List.mem_append.mpr (Or.inr (List.mem_singleton.mpr rfl)), rfl, ?_, sx,
          hsx, ?_⟩
        · exact (placeSeg_get_row sg.mstart sg.mend st
            (placeSeg_row_lt_out sg.mstart sg.mend st)).symm
        · intro sg' hmem si hsi
          have hle : optLE sg.mstart sg'.mstart :=
            segLE_start (List.rel_of_pairwise_cons hsort hmem)
          rw [hsx, hsi] at hle
          exact hle
      · have hrlt : r < st.length := by omega
        obtain ⟨p, hpd, hprow, hpend, sp, hsp, hbound⟩ := hstate r hrlt
        refine ⟨p, List.mem_append.mpr (Or.inl hpd), hprow, ?_, sp, hsp, ?_⟩
        · rw [hpend]
          exact (placeSeg_get_other sg.mstart sg.mend st r hrlt hr hc).symm
        · intro sg' hmem si hsi
          exact hbound sg' (List.mem_cons_of_mem _ hmem) si hsi
    have hcert' : ∃ t : Int, st'.length ≤ (done ++ [xP]).countP (fun p => pcontains p t) := by
      rcases Nat.lt_or_ge row st.length with hlt | hge
      · -- the segment joined an existing row: state length unchanged, old certificate
        obtain ⟨t0, ht0⟩ := hcert
        refine ⟨t0, ?_⟩
        rw [List.countP_append]
        have : st'.length = st.length := by omega
        omega
      · -- a new row opened: certify with the new segment's start month
        have heq : row = st.length := le_antisymm hrowle hge
        have hcount : st.length ≤ done.countP (fun p => pcontains p sx) := by
          have hmem : ∀ r : Nat, r < st.length → r ∈ (done.filter
              (fun p => pcontains p sx)).map Placed.mrow := by
            intro r hr
            obtain ⟨p, hpd, hprow, hpend, sp, hsp, hbound⟩ := hstate r hr
            obtain ⟨a, b, hpa, hpb⟩ := hdone p hpd
            have hstr : st[r] = some b := by rw [← hpend]; exact hpb
            have hscan := placeSeg_scan sg.mstart sg.mend st r hr (by omega)
            rw [hsx, hstr] at hscan
            simp only [jsGt, decide_eq_false_iff_not, not_lt] at hscan
            have hsp_le : sp ≤ sx := hbound sg (List.mem_cons_self _ _) sx hsx
            have hpc : pcontains p sx = true := by
              simp only [pcontains, hsp, hpb, jsLeB, Bool.and_eq_true, decide_eq_true_eq]
              exact ⟨hsp_le, hscan⟩
            exact List.mem_map.mpr ⟨p, List.mem_filter.mpr ⟨hpd, hpc⟩, hprow⟩
          have hsubset : Finset.range st.length ⊆
              ((done.filter (fun p => pcontains p sx)).map Placed.mrow).toFinset := by
            intro r hrr
            rw [List.mem_toFinset]
            exact hmem r (Finset.mem_range.mp hrr)
          calc st.length = (Finset.range st.length).card := (Finset.card_range _).symm
            _ ≤ ((done.filter (fun p => pcontains p sx)).map Placed.mrow).toFinset.card :=
              Finset.card_le_card hsubset
            _ ≤ ((done.filter (fun p => pcontains p sx)).map Placed.mrow).length :=
              List.toFinset_card_le _
            _ = (done.filter (fun p => pcontains p sx)).length := List.length_map _ _
            _ = done.countP (fun p => pcontains p sx) :=
              (List.countP_eq_length_filter _ _).symm
        have hxc : pcontains xP sx = true := by
          simp only [hxP, pcontains, hsx, hex, jsLeB, Bool.and_eq_true, decide_eq_true_eq]
          omega
        refine ⟨sx, ?_⟩
        rw [List.countP_append]
        have h1 : ([xP].countP (fun p => pcontains p sx)) = 1 := by
          simp [List.countP_cons, hxc]
        omega
    obtain ⟨t, ht⟩ := ih (done ++ [xP]) st' hsort.tail
      (fun sg' hmem => hsegs sg' (List.mem_cons_of_mem _ hmem)) hdone' hstate' hcert'
    refine ⟨t, ?_⟩
    have h1 : (placeAll (sg :: rest) st).1 =
        (⟨sg.mstart, sg.mend, row⟩ : Placed) :: (placeAll rest st').1 := by
      rw [placeAll_cons]
    have h2 : (placeAll (sg :: rest) st).2 = (placeAll rest st').2 := by
      rw [placeAll_cons]
    have hl : done ++ (⟨sg.mstart, sg.mend, row⟩ : Placed) :: (placeAll rest st').1 =
        (done ++ [xP]) ++ (placeAll rest st').1 := by
      rw [hxP]
      exact List.append_cons done _ _
    rw [h1, h2, hl]
    exact ht

/-- C2: For every list of valid records (both dates parse, start not after
end), the `rowCount` returned by `stackOverlaps` equals the maximum number
of records whose closed `[startMonthIndex, endMonthIndex]` ranges
simultaneously contain some single month index — the interval graph's
clique number — i.e. greedy first-fit over the sorted intervals is
optimal. -/
theorem stackOverlaps_rowCount_eq_max_depth (items : List Item) (startYear : Int)
    (hv : ∀ it ∈ items, validItem it = true) :
    (∀ t : Int, depthAt items startYear t ≤ (stackOverlaps items startYear).2) ∧
    (∃ t : Int, depthAt items startYear t = (stackOverlaps items startYear).2) := by
  have hupper := fun t => depthAt_le_rowCount items startYear t
  refine ⟨hupper, ?_⟩
  have hsegs : ∀ sg ∈ List.insertionSort segLE (items.map (toSeg · startYear)),
      ∃ a b : Int, sg.mstart = some a ∧ sg.mend = some b ∧ a ≤ b := by
    intro sg hmem
    have hmem' : sg ∈ items.map (toSeg · startYear) :=
      (List.perm_insertionSort segLE _).mem_iff.mp hmem
    obtain ⟨it, hit, rfl⟩ := List.mem_map.mp hmem'
    have hval := hv it hit
    unfold validItem at hval
    rcases hpi : parseDate it.inicio with _ | a
    · rw [hpi] at hval
      simp at hval
    · rcases hpf : parseDate it.fin with _ | b
      · rw [hpi, hpf] at hval
        simp at hval
      · rw [hpi, hpf] at hval
        simp only [decide_eq_true_eq] at hval
        exact ⟨a - startYear * 12, b - startYear * 12,
          by simp [toSeg, monthIndex, hpi], by simp [toSeg, monthIndex, hpf], by omega⟩
  obtain ⟨t, ht⟩ := placeAll_depth_lower _ [] []
    (List.sorted_insertionSort segLE _) hsegs (by simp) (by simp) ⟨0, by simp⟩
  refine ⟨t, le_antisymm (hupper t) ?_⟩
  rw [depthAt_eq_placed, stackOverlaps_eq]
  simpa using ht

/-- Witness for C2 at the spec's fully-overlapping example: the two
records `[2010-01 .. 2012-01]` and `[2011-01 .. 2013-01]` are valid, and
the returned row count (2) is exactly the maximal overlap depth. -/
theorem stackOverlaps_rowCount_witness :
    (∀ it ∈ ([⟨"2010-01-01", "2012-01-01"⟩, ⟨"2011-01-01", "2013-01-01"⟩] : List Item),
        validItem it = true) ∧
    (∀ t : Int,
      depthAt [⟨"2010-01-01", "2012-01-01"⟩, ⟨"2011-01-01", "2013-01-01"⟩] 2010 t ≤
        (stackOverlaps [⟨"2010-01-01", "2012-01-01"⟩, ⟨"2011-01-01", "2013-01-01"⟩] 2010).2) ∧
    (∃ t : Int,
      depthAt [⟨"2010-01-01", "2012-01-01"⟩, ⟨"2011-01-01", "2013-01-01"⟩] 2010 t =
        (stackOverlaps [⟨"2010-01-01", "2012-01-01"⟩, ⟨"2011-01-01", "2013-01-01"⟩] 2010).2) := by
  have h := stackOverlaps_rowCount_eq_max_depth
    [⟨"2010-01-01", "2012-01-01"⟩, ⟨"2011-01-01", "2013-01-01"⟩] 2010 (by decide)
  exact ⟨by decide, h.1, h.2⟩

-- ### C3: malformed records and the stacking boundary

lemma placeAll_length_fst :
    ∀ (segs : List SegIn) (st : List JsNum), (placeAll segs st).1.length = segs.length := by
  intro segs
  induction segs with
  | nil => intro st; simp [placeAll]
  | cons sg rest ih => intro st; simp [placeAll, ih]

/-- C3 counterexample: the record `{inicio: "19x7-01-01", fin:
"2001-01-01"}` has an unparseable start date (`parseDate` yields NaN), yet
it is not excluded: it reaches `stackOverlaps`, which returns it with NaN
month start, month end 48 and an assigned row 0.  No filtering of
malformed records exists between parsing and stacking. -/
theorem malformed_record_reaches_stacking :
    parseDate "19x7-01-01" = none ∧
    (stackOverlaps [⟨"19x7-01-01", "2001-01-01"⟩] 1997).1 =
      [⟨none, some 48, 0⟩] := by
  decide

/-- C3 amended: records with unparseable dates are not excluded before
layout — `stackOverlaps` processes every input record and assigns every
one of them a row (its output has exactly one segment per input record,
with NaN month indices propagated for unparseable dates rather than an
exception being raised). -/
theorem stackOverlaps_drops_nothing (items : List Item) (startYear : Int) :
    (stackOverlaps items startYear).1.length = items.length := by
  rw [stackOverlaps_eq]
  simp only [placeAll_length_fst]
  rw [(List.perm_insertionSort segLE _).length_eq]
  simp

-- ### C5: the bounds resolver only widens the default window

lemma foldl_jsMin_eq (g : Item → JsNum) :
    ∀ (l : List Item), (∀ it ∈ l, ∃ y : Int, g it = some y) → ∀ init : Int,
      l.foldl (fun acc it => jsMin acc (g it)) (some init) =
        some ((l.map (fun it => (g it).getD 0)).foldl min init) := by
  intro l
  induction l with
  | nil => intro _ init; rfl
  | cons it rest ih =>
    intro h init
    obtain ⟨y, hy⟩ := h it (List.mem_cons_self _ _)
    simp only [List.foldl_cons, List.map_cons, hy, jsMin]
    exact ih (fun x hx => h x (List.mem_cons_of_mem _ hx)) (min init y)

lemma foldl_jsMax_eq (g : Item → JsNum) :
    ∀ (l : List Item), (∀ it ∈ l, ∃ y : Int, g it = some y) → ∀ init : Int,
      l.foldl (fun acc it => jsMax acc (g it)) (some init) =
        some ((l.map (fun it => (g it).getD 0)).foldl max init) := by
  intro l
  induction l with
  | nil => intro _ init; rfl
  | cons it rest ih =>
    intro h init
    obtain ⟨y, hy⟩ := h it (List.mem_cons_self _ _)
    simp only [List.foldl_cons, List.map_cons, hy, jsMax]
    exact ih (fun x hx => h x (List.mem_cons_of_mem _ hx)) (max init y)

lemma foldl_min_le_init : ∀ (l : List Int) (init : Int), l.foldl min init ≤ init := by
  intro l
  induction l with
  | nil => intro init; simp
  | cons x rest ih =>
    intro init
    simp only [List.foldl_cons]
    exact le_trans (ih (min init x)) (min_le_left _ _)

lemma foldl_max_init_le : ∀ (l : List Int) (init : Int), init ≤ l.foldl max init := by
  intro l
  induction l with
  | nil => intro init; simp
  | cons x rest ih =>
    intro init
    simp only [List.foldl_cons]
    exact le_trans (le_max_left _ _) (ih (max init x))

lemma foldl_min_mono : ∀ (l : List Int) {i j : Int}, i ≤ j → l.foldl min i ≤ l.foldl min j := by
  intro l
  induction l with
  | nil => intro i j h; simpa
  | cons x rest ih =>
    intro i j h
    simp only [List.foldl_cons]
    exact ih (min_le_min h le_rfl)

lemma foldl_max_mono : ∀ (l : List Int) {i j : Int}, i ≤ j → l.foldl max i ≤ l.foldl max j := by
  intro l
  induction l with
  | nil => intro i j h; simpa
  | cons x rest ih =>
    intro i j h
    simp only [List.foldl_cons]
    exact ih (max_le_max h le_rfl)

lemma validItem_start_some {it : Item} (h : validItem it = true) :
    ∃ y : Int, getFullYear (parseDate it.inicio) = some y := by
  unfold validItem at h
  rcases hpi : parseDate it.inicio with _ | a
  · rw [hpi] at h; simp at h
  · exact ⟨Int.ediv a 12, by simp [getFullYear, hpi]⟩

lemma validItem_end_some {it : Item} (h : validItem it = true) :
    ∃ y : Int, getFullYear (parseDate it.fin) = some y := by
  unfold validItem at h
  rcases hpi : parseDate it.inicio with _ | a
  · rw [hpi] at h; simp at h
  · rcases hpf : parseDate it.fin with _ | b
    · rw [hpi, hpf] at h; simp at h
    · exact ⟨Int.ediv b 12, by simp [getFullYear, hpf]⟩

/-- The non-empty branch of `getTimelineBounds`, rewritten through the
validity hypothesis to integer folds. -/
lemma getTimelineBounds_nonempty (items : List Item) (currentYear : Int)
    (hv : ∀ x ∈ items, validItem x = true) (hne : items ≠ []) :
    getTimelineBounds items currentYear =
      (some (min START_YEAR_DEFAULT
          ((items.map (fun it => (getFullYear (parseDate it.inicio)).getD 0)).foldl
            min currentYear)),
        some (max currentYear
          ((items.map (fun it => (getFullYear (parseDate it.fin)).getD 0)).foldl
            max START_YEAR_DEFAULT))) := by
  unfold getTimelineBounds
  rw [if_neg (by simpa using hne)]
  rw [foldl_jsMin_eq _ items (fun x hx => validItem_start_some (hv x hx)) currentYear]
  rw [foldl_jsMax_eq _ items (fun x hx => validItem_end_some (hv x hx)) START_YEAR_DEFAULT]
  rfl

/-- C5: the bounds resolver only widens the default window.  For every
valid record list it returns `startYear ≤ 1997` and
`endYear ≥ currentYear`; for the empty list it returns exactly
`(1997, currentYear)`; adding a valid record never narrows the returned
range; and recomputation on the same input returns the same bounds (it is
a pure function of its input). -/
theorem getTimelineBounds_spec (items : List Item) (it : Item) (currentYear : Int)
    (hv : ∀ x ∈ items, validItem x = true) (hit : validItem it = true) :
    (∃ a b : Int, getTimelineBounds items currentYear = (some a, some b) ∧
      a ≤ START_YEAR_DEFAULT ∧ currentYear ≤ b) ∧
    getTimelineBounds [] currentYear = (some START_YEAR_DEFAULT, some currentYear) ∧
    (∀ a' b' a b : Int,
      getTimelineBounds (it :: items) currentYear = (some a', some b') →
      getTimelineBounds items currentYear = (some a, some b) → a' ≤ a ∧ b ≤ b') ∧
    getTimelineBounds items currentYear = getTimelineBounds items currentYear := by
  have hwide : ∀ (l : List Item), (∀ x ∈ l, validItem x = true) →
      ∃ a b : Int, getTimelineBounds l currentYear = (some a, some b) ∧
        a ≤ START_YEAR_DEFAULT ∧ currentYear ≤ b := by
    intro l hl
    rcases hcase : l with _ | ⟨j, js⟩
    · exact ⟨START_YEAR_DEFAULT, currentYear, rfl, le_rfl, le_rfl⟩
    · rw [← hcase]
      rw [getTimelineBounds_nonempty l currentYear hl (by rw [hcase]; simp)]
      exact ⟨_, _, rfl, min_le_left _ _, le_max_left _ _⟩
  refine ⟨hwide items hv, rfl, ?_, rfl⟩
  intro a' b' a b hcons hbase
  rcases hcase : items with _ | ⟨j, js⟩
  · -- adding to the empty list: the base bounds are the defaults
    subst hcase
    have hbase' : ((some START_YEAR_DEFAULT : JsNum), (some currentYear : JsNum)) =
        (some a, some b) := hbase
    have ha : START_YEAR_DEFAULT = a := Option.some.inj (congrArg Prod.fst hbase')
    have hb : currentYear = b := Option.some.inj (congrArg Prod.snd hbase')
    subst ha
    subst hb
    obtain ⟨a0, b0, heq, ha0, hb0⟩ := hwide [it]
      (by intro x hx; rw [List.mem_singleton.mp hx]; exact hit)
    rw [heq] at hcons
    have ha' : a0 = a' := Option.some.inj (congrArg Prod.fst hcons)
    have hb' : b0 = b' := Option.some.inj (congrArg Prod.snd hcons)
    subst ha'
    subst hb'
    exact ⟨ha0, hb0⟩
  · subst hcase
    have hvc : ∀ x ∈ it :: j :: js, validItem x = true := by
      intro x hx
      rcases List.mem_cons.mp hx with rfl | hx
      · exact hit
      · exact hv x hx
    rw [getTimelineBounds_nonempty _ currentYear hvc (by simp)] at hcons
    rw [getTimelineBounds_nonempty _ currentYear hv (by simp)] at hbase
    have hmin : (((it :: j :: js).map
          (fun x => (getFullYear (parseDate x.inicio)).getD 0)).foldl min currentYear) ≤
        (((j :: js).map (fun x => (getFullYear (parseDate x.inicio)).getD 0)).foldl
          min currentYear) := by
      simp only [List.map_cons, List.foldl_cons]
      exact foldl_min_mono _ (min_le_min (min_le_left _ _) le_rfl)
    have hmax : (((j :: js).map (fun x => (getFullYear (parseDate x.fin)).getD 0)).foldl
          max START_YEAR_DEFAULT) ≤
        (((it :: j :: js).map (fun x => (getFullYear (parseDate x.fin)).getD 0)).foldl
          max START_YEAR_DEFAULT) := by
      simp only [List.map_cons, List.foldl_cons]
      exact foldl_max_mono _ (max_le_max (le_max_left _ _) le_rfl)
    have h1 := congrArg Prod.fst hcons
    have h2 := congrArg Prod.snd hcons
    have h3 := congrArg Prod.fst hbase
    have h4 := congrArg Prod.snd hbase
    simp only [Option.some.injEq] at h1 h2 h3 h4
    constructor
    · rw [← h1, ← h3]
      exact min_le_min le_rfl hmin
    · rw [← h2, ← h4]
      exact max_le_max le_rfl hmax

/-- Witness for C5 at a concrete valid record set: one record
`[2010-01 .. 2012-01]`, augmented record `[1990-05 .. 1995-01]`,
current year 2026. -/
theorem getTimelineBounds_witness :
    (∃ a b : Int,
      getTimelineBounds [⟨"2010-01-01", "2012-01-01"⟩] 2026 = (some a, some b) ∧
        a ≤ START_YEAR_DEFAULT ∧ (2026 : Int) ≤ b) ∧
    getTimelineBounds [] 2026 = (some START_YEAR_DEFAULT, some 2026) ∧
    (∀ a' b' a b : Int,
      getTimelineBounds (⟨"1990-05-01", "1995-01-01"⟩ :: [⟨"2010-01-01", "2012-01-01"⟩]) 2026 =
        (some a', some b') →
      getTimelineBounds [⟨"2010-01-01", "2012-01-01"⟩] 2026 = (some a, some b) →
        a' ≤ a ∧ b ≤ b') ∧
    getTimelineBounds [⟨"2010-01-01", "2012-01-01"⟩] 2026 =
      getTimelineBounds [⟨"2010-01-01", "2012-01-01"⟩] 2026 :=
  getTimelineBounds_spec [⟨"2010-01-01", "2012-01-01"⟩] ⟨"1990-05-01", "1995-01-01"⟩ 2026
    (by decide) (by decide)

-- ### C6 and C7: tooltip controller

lemma scheduleTooltipPosition_shown (st : TipState) :
    (scheduleTooltipPosition st).shown = st.shown := by
  unfold scheduleTooltipPosition
  split <;> rfl

lemma scheduleTooltipPosition_activeBar (st : TipState) :
    (scheduleTooltipPosition st).activeBar = st.activeBar := by
  unfold scheduleTooltipPosition
  split <;> rfl

lemma showTip_shown (bar : Nat) (st : TipState) : (showTip bar st).shown = true := by
  unfold showTip
  rw [scheduleTooltipPosition_shown]

lemma showTip_activeBar (bar : Nat) (st : TipState) :
    (showTip bar st).activeBar = some bar := by
  unfold showTip
  rw [scheduleTooltipPosition_activeBar]

/-- C6: while the tooltip is shown for `bar`, a show-request for a
different bar (hover/focus, and also click, which does not toggle on a
different anchor) transitions directly to `SHOWN(otherBar)` — the single
transition ends shown, with no intermediate hidden state — while a second
show-request on the same anchor yields `HIDDEN` exactly on the click
activation path; hover and focus requests on the same anchor leave it
`SHOWN`. -/
theorem tooltip_request_transitions (st : TipState) (bar other : Nat)
    (ha : st.activeBar = some bar) (hs : st.shown = true) (hne : other ≠ bar) :
    ((showTip other st).shown = true ∧ (showTip other st).activeBar = some other) ∧
    ((clickBar other st).shown = true ∧ (clickBar other st).activeBar = some other) ∧
    ((clickBar bar st).shown = false ∧ (clickBar bar st).activeBar = none) ∧
    ((showTip bar st).shown = true ∧ (showTip bar st).activeBar = some bar) := by
  have hcl : clickBar other st = showTip other st := by
    unfold clickBar
    rw [if_neg]
    rintro ⟨hab, -⟩
    rw [ha] at hab
    exact hne (Option.some.inj hab).symm
  have hcb : clickBar bar st = hideTip st := by
    unfold clickBar
    rw [if_pos ⟨ha, hs⟩]
  refine ⟨⟨showTip_shown _ _, showTip_activeBar _ _⟩, ?_, ?_,
    ⟨showTip_shown _ _, showTip_activeBar _ _⟩⟩
  · rw [hcl]
    exact ⟨showTip_shown _ _, showTip_activeBar _ _⟩
  · rw [hcb]
    exact ⟨rfl, rfl⟩

/-- Witness for C6: a state showing bar 0, with bar 1 as the other
anchor. -/
theorem tooltip_request_transitions_witness :
    ((showTip 1 ⟨some 0, true, false, 0, none⟩).shown = true ∧
      (showTip 1 ⟨some 0, true, false, 0, none⟩).activeBar = some 1) ∧
    ((clickBar 1 ⟨some 0, true, false, 0, none⟩).shown = true ∧
      (clickBar 1 ⟨some 0, true, false, 0, none⟩).activeBar = some 1) ∧
    ((clickBar 0 ⟨some 0, true, false, 0, none⟩).shown = false ∧
      (clickBar 0 ⟨some 0, true, false, 0, none⟩).activeBar = none) ∧
    ((showTip 0 ⟨some 0, true, false, 0, none⟩).shown = true ∧
      (showTip 0 ⟨some 0, true, false, 0, none⟩).activeBar = some 0) :=
  tooltip_request_transitions ⟨some 0, true, false, 0, none⟩ 0 1 rfl rfl (by decide)

/-- The coalescing invariant: the number of pending frame callbacks is 1
when a handle is held and 0 otherwise. -/
def framesInv (st : TipState) : Prop :=
  st.framesQueued = if st.rafId then 1 else 0

lemma updateTooltipPosition_rafId (pr : Rect) (br : Nat → Rect) (tr : Rect) (st : TipState) :
    (updateTooltipPosition pr br tr st).rafId = st.rafId ∧
    (updateTooltipPosition pr br tr st).framesQueued = st.framesQueued := by
  constructor <;>
    (unfold updateTooltipPosition hideTip
     rcases hab : st.activeBar with _ | bar
     · rfl
     · split
       · rfl
       · split
         · dsimp only
           split <;> rfl
         · rfl)

lemma scheduleTooltipPosition_framesInv (st : TipState) (h : framesInv st) :
    framesInv (scheduleTooltipPosition st) := by
  unfold framesInv scheduleTooltipPosition at *
  by_cases hr : st.rafId <;> simp_all

lemma hideTip_framesInv (st : TipState) (h : framesInv st) : framesInv (hideTip st) := h

lemma showTip_framesInv (bar : Nat) (st : TipState) (h : framesInv st) :
    framesInv (showTip bar st) :=
  scheduleTooltipPosition_framesInv _ h

lemma stepEv_framesInv (ev : TimelineEv) (st : TipState) (h : framesInv st) :
    framesInv (stepEv ev st) := by
  cases ev with
  | enter bar => exact showTip_framesInv bar st h
  | leave => exact hideTip_framesInv st h
  | focusBar bar => exact showTip_framesInv bar st h
  | blurBar => exact hideTip_framesInv st h
  | clickB bar =>
    show framesInv (clickBar bar st)
    unfold clickBar
    split
    · exact hideTip_framesInv st h
    · exact showTip_framesInv bar st h
  | keyActivate bar => exact showTip_framesInv bar st h
  | scroll => exact scheduleTooltipPosition_framesInv st h
  | winResize => exact scheduleTooltipPosition_framesInv st h
  | outsidePointer =>
    show framesInv (if st.shown = true then hideTip st else st)
    split
    · exact hideTip_framesInv st h
    · exact h
  | escapeKey => exact hideTip_framesInv st h
  | frame pr br tr =>
    show framesInv (if st.framesQueued = 0 then st
      else updateTooltipPosition pr br tr
        { st with rafId := false, framesQueued := st.framesQueued - 1 })
    split
    · exact h
    · rename_i hq
      have hu := updateTooltipPosition_rafId pr br tr
        { st with rafId := false, framesQueued := st.framesQueued - 1 }
      unfold framesInv at h ⊢
      rw [hu.1, hu.2]
      -- with a nonzero queue the invariant forces rafId = true and queue = 1
      by_cases hr : st.rafId <;> simp_all

lemma runEvents_framesInv (evs : List TimelineEv) : framesInv (runEvents evs) := by
  unfold runEvents
  suffices h : ∀ st : TipState, framesInv st →
      framesInv (evs.foldl (fun st ev => stepEv ev st) st) by
    exact h initTipState rfl
  induction evs with
  | nil => intro st h; exact h
  | cons ev rest ih =>
    intro st h
    exact ih _ (stepEv_framesInv ev st h)

/-- C7: at most one tooltip-position recomputation is ever pending — a
scroll/resize trigger arriving while a frame callback is already scheduled
(`rafId` set) is a no-op that schedules nothing, and along every event
trace from the initial state the number of pending frame callbacks never
exceeds one (it is cleared when the callback fires). -/
theorem tooltip_position_coalesced :
    (∀ st : TipState, st.rafId = true → scheduleTooltipPosition st = st) ∧
    (∀ evs : List TimelineEv, (runEvents evs).framesQueued ≤ 1) := by
  constructor
  · intro st h
    unfold scheduleTooltipPosition
    rw [if_pos h]
  · intro evs
    have h := runEvents_framesInv evs
    unfold framesInv at h
    rw [h]
    split <;> omega

/-- Witness for C7: a concrete state with a held frame handle is left
unchanged by a trigger, and a two-scroll trace keeps at most one pending
callback. -/
theorem tooltip_position_coalesced_witness :
    scheduleTooltipPosition ⟨some 0, true, true, 1, none⟩ = ⟨some 0, true, true, 1, none⟩ ∧
    (runEvents [TimelineEv.scroll, TimelineEv.scroll]).framesQueued ≤ 1 :=
  ⟨tooltip_position_coalesced.1 ⟨some 0, true, true, 1, none⟩ rfl,
    tooltip_position_coalesced.2 [TimelineEv.scroll, TimelineEv.scroll]⟩

-- ### C10: HTML escaping and markup injection safety

lemma escChar_safe (c : Char) :
    '<' ∉ escChar c ∧ '>' ∉ escChar c ∧ '"' ∉ escChar c ∧ '\'' ∉ escChar c := by
  unfold escChar
  split_ifs with h1 h2 h3 h4 h5
  · decide
  · decide
  · decide
  · decide
  · decide
  · refine ⟨?_, ?_, ?_, ?_⟩ <;> intro he <;> rw [List.mem_singleton] at he
    · exact h2 he.symm
    · exact h3 he.symm
    · exact h4 he.symm
    · exact h5 he.symm

lemma mem_escapeHtml {d : Char} {s : String} (hd : d ∈ (escapeHtml s).data) :
    ∃ c ∈ s.data, d ∈ escChar c := by
  have hd' : d ∈ (s.data.map escChar).flatten := hd
  obtain ⟨blk, hblk, hdblk⟩ := List.mem_flatten.mp hd'
  obtain ⟨c, hc, rfl⟩ := List.mem_map.mp hblk
  exact ⟨c, hc, hdblk⟩

lemma escapeHtml_no_special (s : String) :
    '<' ∉ (escapeHtml s).data ∧ '>' ∉ (escapeHtml s).data ∧
    '"' ∉ (escapeHtml s).data ∧ '\'' ∉ (escapeHtml s).data := by
  refine ⟨fun h => ?_, fun h => ?_, fun h => ?_, fun h => ?_⟩ <;>
    obtain ⟨c, -, hm⟩ := mem_escapeHtml h
  · exact (escChar_safe c).1 hm
  · exact (escChar_safe c).2.1 hm
  · exact (escChar_safe c).2.2.1 hm
  · exact (escChar_safe c).2.2.2 hm

lemma append_eq_append_cons :
    ∀ (blk pre suf T : List Char), blk ++ T = pre ++ '&' :: suf →
      (∃ mid, blk = pre ++ '&' :: mid ∧ suf = mid ++ T) ∨
      (∃ pre2, pre = blk ++ pre2 ∧ T = pre2 ++ '&' :: suf) := by
  intro blk
  induction blk with
  | nil =>
    intro pre suf T h
    right
    exact ⟨pre, rfl, by simpa using h⟩
  | cons b blk' ih =>
    intro pre suf T h
    cases pre with
    | nil =>
      rw [List.cons_append, List.nil_append] at h
      obtain ⟨hb, hrest⟩ := List.cons.inj h
      subst hb
      exact Or.inl ⟨blk', rfl, hrest.symm⟩
    | cons p pre' =>
      rw [List.cons_append, List.cons_append] at h
      obtain ⟨hb, hrest⟩ := List.cons.inj h
      subst hb
      rcases ih pre' suf T hrest with ⟨mid, h1, h2⟩ | ⟨pre2, h1, h2⟩
      · left
        exact ⟨mid, by rw [h1, List.cons_append], h2⟩
      · right
        exact ⟨pre2, by rw [h1, List.cons_append], h2⟩

lemma amp_only_head :
    ∀ (tl pre mid : List Char), '&' ∉ tl → '&' :: tl = pre ++ '&' :: mid →
      pre = [] ∧ mid = tl := by
  intro tl pre mid htl h
  cases pre with
  | nil =>
    rw [List.nil_append] at h
    exact ⟨rfl, (List.cons.inj h).2.symm⟩
  | cons p pre' =>
    rw [List.cons_append] at h
    obtain ⟨hp, hrest⟩ := List.cons.inj h
    exfalso
    apply htl
    rw [hrest]
    exact List.mem_append_right _ (List.mem_cons_self _ _)

lemma escFlat_amp :
    ∀ (l : List Char) (pre suf : List Char),
      (l.map escChar).flatten = pre ++ '&' :: suf →
      ∃ e ∈ entityList, ∃ rest, '&' :: suf = e ++ rest := by
  intro l
  induction l with
  | nil =>
    intro pre suf h
    have hlen := congrArg List.length h
    rw [List.map_nil, List.flatten_nil] at hlen
    simp only [List.length_nil, List.length_append, List.length_cons] at hlen
    omega
  | cons c l' ih =>
    intro pre suf h
    rw [List.map_cons, List.flatten_cons] at h
    rcases append_eq_append_cons (escChar c) pre suf _ h with ⟨mid, hb, hsuf⟩ | ⟨pre2, _, hT⟩
    · by_cases h1 : c = '&'
      · subst h1
        have he : escChar '&' = '&' :: "amp;".data := by decide
        rw [he] at hb
        obtain ⟨-, hmid⟩ := amp_only_head _ _ _ (by decide) hb
        exact ⟨"&amp;".data, by decide, (l'.map escChar).flatten, by rw [hsuf, hmid]; rfl⟩
      · by_cases h2 : c = '<'
        · subst h2
          have he : escChar '<' = '&' :: "lt;".data := by decide
          rw [he] at hb
          obtain ⟨-, hmid⟩ := amp_only_head _ _ _ (by decide) hb
          exact ⟨"&lt;".data, by decide, (l'.map escChar).flatten, by rw [hsuf, hmid]; rfl⟩
        · by_cases h3 : c = '>'
          · subst h3
            have he : escChar '>' = '&' :: "gt;".data := by decide
            rw [he] at hb
            obtain ⟨-, hmid⟩ := amp_only_head _ _ _ (by decide) hb
            exact ⟨"&gt;".data, by decide, (l'.map escChar).flatten, by rw [hsuf, hmid]; rfl⟩
          · by_cases h4 : c = '"'
            · subst h4
              have he : escChar '"' = '&' :: "quot;".data := by decide
              rw [he] at hb
              obtain ⟨-, hmid⟩ := amp_only_head _ _ _ (by decide) hb
              exact ⟨"&quot;".data, by decide, (l'.map escChar).flatten, by rw [hsuf, hmid]; rfl⟩
            · by_cases h5 : c = '\''
              · subst h5
                have he : escChar '\'' = '&' :: "#039;".data := by decide
                rw [he] at hb
                obtain ⟨-, hmid⟩ := amp_only_head _ _ _ (by decide) hb
                exact ⟨"&#039;".data, by decide, (l'.map escChar).flatten, by rw [hsuf, hmid]; rfl⟩
              · have he : escChar c = [c] := by
                  unfold escChar
                  rw [if_neg h1, if_neg h2, if_neg h3, if_neg h4, if_neg h5]
                rw [he] at hb
                exfalso
                cases pre with
                | nil =>
                  rw [List.nil_append] at hb
                  exact h1 (List.cons.inj hb).1
                | cons p pre' =>
                  rw [List.cons_append] at hb
                  have := congrArg List.length (List.cons.inj hb).2
                  simp at this
                  omega
    · exact ih pre2 suf hT

lemma count_escapeHtml_lt (s : String) : countChar '<' (escapeHtml s) = 0 :=
  List.count_eq_zero.mpr (escapeHtml_no_special s).1

lemma countChar_append (c : Char) (a b : String) :
    countChar c (a ++ b) = countChar c a + countChar c b := by
  simp [countChar, String.data_append, List.count_append]

lemma join_data :
    ∀ (l : List String), (String.join l).data = (l.map String.data).flatten := by
  have haux : ∀ (l : List String) (acc : String),
      (l.foldl (fun r s => r ++ s) acc).data = acc.data ++ (l.map String.data).flatten := by
    intro l
    induction l with
    | nil => intro acc; simp
    | cons s rest ih =>
      intro acc
      rw [List.foldl_cons, ih, String.data_append, List.map_cons, List.flatten_cons,
        List.append_assoc]
  intro l
  have := haux l ""
  simpa [String.join] using this

lemma count_flatten_sum (c : Char) :
    ∀ (L : List (List Char)), L.flatten.count c = (L.map (List.count c)).sum := by
  intro L
  induction L with
  | nil => rfl
  | cons blk rest ih => rw [List.flatten_cons, List.count_append, ih, List.map_cons, List.sum_cons]

lemma sum_map_const_nat {α : Type} (f : α → Nat) (k : Nat) :
    ∀ l : List α, (∀ a ∈ l, f a = k) → (l.map f).sum = k * l.length := by
  intro l
  induction l with
  | nil => intro _; simp
  | cons a rest ih =>
    intro h
    rw [List.map_cons, List.sum_cons, ih (fun x hx => h x (List.mem_cons_of_mem _ hx)),
      h a (List.mem_cons_self _ _), List.length_cons]
    ring

lemma pill_count (tema : String) :
    countChar '<' ("<span class=\"tooltip-pill\">" ++ escapeHtml tema ++ "</span>") = 2 := by
  rw [countChar_append, countChar_append, count_escapeHtml_lt]
  decide

lemma pills_count (temas : List String) :
    countChar '<' (String.join (temas.map
      (fun tema => "<span class=\"tooltip-pill\">" ++ escapeHtml tema ++ "</span>"))) =
      2 * temas.length := by
  unfold countChar
  rw [join_data, count_flatten_sum, List.map_map, List.map_map]
  exact sum_map_const_nat _ 2 temas (fun tema _ => pill_count tema)

/-- C10: for every input string, `escapeHtml` output contains no `<`, `>`,
`"` or `'`, and every `&` in its output begins one of the five entities
`&amp;`, `&lt;`, `&gt;`, `&quot;`, `&#039;`; and since every free-text
label and tag interpolated into the bar and tooltip markup passes through
`escapeHtml`, record text cannot inject markup: the number of `<`
characters (markup tag openers) in the built bar and tooltip HTML is
independent of all free-text inputs (given the same number of tags). -/
theorem escapeHtml_injection_safe :
    (∀ s : String,
      '<' ∉ (escapeHtml s).data ∧ '>' ∉ (escapeHtml s).data ∧
      '"' ∉ (escapeHtml s).data ∧ '\'' ∉ (escapeHtml s).data) ∧
    (∀ (s : String) (pre suf : List Char),
      (escapeHtml s).data = pre ++ '&' :: suf →
      ∃ e ∈ entityList, ∃ rest, '&' :: suf = e ++ rest) ∧
    (∀ nivel₁ main₁ sub₁ nivel₂ main₂ sub₂ : String,
      countChar '<' (barInnerHTML nivel₁ main₁ sub₁) =
        countChar '<' (barInnerHTML nivel₂ main₂ sub₂)) ∧
    (∀ (title₁ sub₁ nivel₁ title₂ sub₂ nivel₂ inicio fin : String)
      (temas₁ temas₂ : List String),
      temas₁.length = temas₂.length →
      countChar '<' (buildTooltipContent title₁ sub₁ nivel₁ inicio fin temas₁) =
        countChar '<' (buildTooltipContent title₂ sub₂ nivel₂ inicio fin temas₂)) := by
  refine ⟨escapeHtml_no_special, ?_, ?_, ?_⟩
  · intro s pre suf h
    exact escFlat_amp s.data pre suf h
  · intro nivel₁ main₁ sub₁ nivel₂ main₂ sub₂
    simp only [barInnerHTML, countChar_append, count_escapeHtml_lt]
  · intro title₁ sub₁ nivel₁ title₂ sub₂ nivel₂ inicio fin temas₁ temas₂ h
    have hiff : temas₁.isEmpty = temas₂.isEmpty := by
      cases temas₁ <;> cases temas₂ <;> simp_all
    unfold buildTooltipContent
    by_cases he : temas₁.isEmpty = true
    · rw [if_pos he, if_pos (hiff ▸ he)]
      simp only [countChar_append, count_escapeHtml_lt]
    · rw [if_neg he, if_neg (hiff ▸ he)]
      simp only [countChar_append, count_escapeHtml_lt, pills_count]
      omega

/-- Witness for C10 at concrete free-text inputs including markup
characters. -/
theorem escapeHtml_injection_safe_witness :
    ('<' ∉ (escapeHtml "a<b").data ∧ '>' ∉ (escapeHtml "a<b").data ∧
      '"' ∉ (escapeHtml "a<b").data ∧ '\'' ∉ (escapeHtml "a<b").data) ∧
    (∃ e ∈ entityList, ∃ rest,
      '&' :: ['a', 'm', 'p', ';', 'b'] = e ++ rest) ∧
    countChar '<' (barInnerHTML "x" "y" "z") =
      countChar '<' (barInnerHTML "<script>" "w" "v") ∧
    countChar '<' (buildTooltipContent "t" "s" "n" "2001-01-01" "2002-01-01" ["a"]) =
      countChar '<' (buildTooltipContent "<img>" "u" "m" "2001-01-01" "2002-01-01" ["b"]) := by
  refine ⟨escapeHtml_injection_safe.1 "a<b", ?_,
    escapeHtml_injection_safe.2.2.1 "x" "y" "z" "<script>" "w" "v",
    escapeHtml_injection_safe.2.2.2 "t" "s" "n" "<img>" "u" "m" "2001-01-01" "2002-01-01"
      ["a"] ["b"] rfl⟩
  exact escapeHtml_injection_safe.2.1 "a&b" ['a'] ['a', 'm', 'p', ';', 'b'] (by decide)

-- sanity checks on concrete inputs (spec section 8 round-trip examples)
example :
    (stackOverlaps [⟨"2001-01-01", "2002-01-01"⟩, ⟨"2003-01-01", "2004-01-01"⟩,
      ⟨"2005-01-01", "2006-01-01"⟩] 2001).1.map Placed.mrow = [0, 0, 0] := by decide

example :
    (stackOverlaps [⟨"2010-01-01", "2012-01-01"⟩, ⟨"2011-01-01", "2013-01-01"⟩] 2010).1.map
      Placed.mrow = [0, 1] := by decide

example :
    (stackOverlaps [⟨"2010-01-01", "2012-01-01"⟩, ⟨"2011-01-01", "2013-01-01"⟩] 2010).2 = 2 := by
  decide

example : parseDate "2001-03-05" = some (2001 * 12 + 2) := by decide

example : parseDate "19x7-01-01" = none := by decide

example : parseDate "" = none := by decide
